import Mathlib

/-!
Verification of the diskio benchmark core.

Shallow embedding of the repository's core (src/stats.rs, src/main.rs):
the `Stats` collector, the `SizeArg` textual size-spec parser with its
canonical size menus, and the writer thread's quota loop.  Wall-clock
time is external input: every place the source reads the clock, the
embedding takes the observed value (elapsed whole seconds of the current
throughput window, the latency of the operation) as an oracle argument.
All `u64`/`isize` quantities in the claims stay far below the machine
bounds, so they are modelled as `Nat`/`Int` without wraparound.
-/

namespace Diskio

/-! Stats collector (src/stats.rs).

`tp_second : SystemTime` is the window-boundary timestamp; it is
abstracted away: each `click` receives `elapsedSecs`, the value of
`self.tp_second.elapsed()?.as_secs()` observed by that call (whole
seconds, truncated).  The `?` failure paths of `elapsed()` (clock going
backwards) are not modelled; the embedding is the success path. -/

structure Stats where
  tp_current : Nat
  sync_latencies : List Nat
  throughputs : List Nat
  deriving DecidableEq, Repr

/-- Rust `Stats::new` — fresh collector: zero pending bytes, empty series. -/
def Stats.new : Stats :=
  { tp_current := 0, sync_latencies := [], throughputs := [] }

/-- Rust `Stats::click(start, size)` — `latencyMicros` is the observed
`start.elapsed()?.as_micros()`, `elapsedSecs` the observed
`self.tp_second.elapsed()?.as_secs()`.  The source's reset of
`tp_second` to `now()` is part of the abstracted clock state. -/
def Stats.click (s : Stats) (elapsedSecs latencyMicros size : Nat) : Stats :=
  if elapsedSecs = 1 then
    let throughput :=
      match s.throughputs.getLast? with
      | some x => (x + s.tp_current) / 2
      | none => s.tp_current
    { tp_current := 0,
      sync_latencies := s.sync_latencies ++ [latencyMicros],
      throughputs := s.throughputs ++ [throughput] }
  else
    { s with
      tp_current := s.tp_current + size,
      sync_latencies := s.sync_latencies ++ [latencyMicros] }

/-- Rust `Vec::resize(new_len, 0)` — truncates when `new_len` is smaller,
pads with zeros when larger. -/
def vecResize (l : List Nat) (n : Nat) : List Nat :=
  if n ≤ l.length then l.take n else l ++ List.replicate (n - l.length) 0

/-- Rust `Stats::join(other)` — latencies are concatenated; `self.throughputs`
is resized to `other.throughputs.len()` and then the zipped elements are
summed in place (elements beyond the zipped region, of which there are
none since the lengths are equal after the resize, would stay). -/
def Stats.join (s other : Stats) : Stats :=
  { s with
    sync_latencies := s.sync_latencies ++ other.sync_latencies,
    throughputs :=
      let r := vecResize s.throughputs other.throughputs.length
      r.zipWith (· + ·) other.throughputs ++ r.drop other.throughputs.length }

/-! SizeArg parser (src/main.rs).

The two regexes
`ARG_RE1 = ^([0-9]+[kKmMgG]?)(\.\.[0-9]+[kKmMgG]?)?$` and
`ARG_RE2 = ^([0-9]+[kKmMgG]?)(,[0-9]+[kKmMgG]?)*$`
are embedded as executable matchers over `List Char`.  A token
(`[0-9]+[kKmMgG]?`) contains neither `.` nor `,`, so the regex
decomposition of a matching string is unique: the maximal digit run
followed by at most one unit character, ranges split at the first `.`,
lists split at every `,`. -/

inductive SizeArg where
  | none : SizeArg
  | range : Option Int → Option Int → SizeArg
  | list : List Int → SizeArg
  deriving DecidableEq, Repr

/-- The character class `[kKmMgG]` of both regexes (no `t`/`T`). -/
def isUnitChar (c : Char) : Bool :=
  c == 'k' || c == 'K' || c == 'm' || c == 'M' || c == 'g' || c == 'G'

/-- One regex token `[0-9]+[kKmMgG]?`: a nonempty digit run followed by
nothing or by a single unit character. -/
def sizeToken (cs : List Char) : Bool :=
  let ds := cs.takeWhile (·.isDigit)
  match cs.dropWhile (·.isDigit) with
  | [] => !ds.isEmpty
  | [c] => !ds.isEmpty && isUnitChar c
  | _ => false

/-- The `ARG_RE1` match and capture: `some (a, none)` for a bare token,
`some (a, some b)` for `a..b`: the group-1 text and the group-2 text
with the two leading dots already skipped (the source's `skip(2)`). -/
def splitRange (cs : List Char) : Option (List Char × Option (List Char)) :=
  let a := cs.takeWhile (fun c => c != '.')
  match cs.dropWhile (fun c => c != '.') with
  | [] => if sizeToken a then some (a, Option.none) else Option.none
  | '.' :: '.' :: b =>
      if sizeToken a && sizeToken b then some (a, some b) else Option.none
  | _ => Option.none

/-- Split at every comma (`ARG_RE2`'s list structure; the source splits
the whole capture with `split(',')`). -/
def splitCommas : List Char → List (List Char)
  | [] => [[]]
  | c :: rest =>
    match splitCommas rest with
    | [] => [[c]]
    | t :: ts => if c == ',' then [] :: t :: ts else (c :: t) :: ts

/-- Rust `str::parse::<isize>` restricted to what reaches it here: the bodies
handed over are digit runs, for which parsing succeeds with the decimal
value (sign forms and `isize` overflow are unreachable from the
regex-validated tokens of this program and are not modelled). -/
def parseDecimal (cs : List Char) : Except String Int :=
  if cs ≠ [] ∧ cs.all (·.isDigit) then
    .ok (cs.foldl (fun a c => a * 10 + ((c.toNat : Int) - 48)) 0)
  else .error ("parse error")

/-- Rust `SizeArg::to_isize` — inspect the last character (`chs[len-1]`; the
source would panic on an empty string, modelled as an error since no
empty string reaches it), strip a recognised suffix and scale.  Note
`t`/`T` are handled here although the regexes never let them through. -/
def to_isize (cs : List Char) : Except String Int :=
  match cs.getLast? with
  | Option.none => .error ("panic: empty input")
  | some c =>
    if c = 'k' ∨ c = 'K' then (parseDecimal cs.dropLast).map (· * 1024)
    else if c = 'm' ∨ c = 'M' then (parseDecimal cs.dropLast).map (· * (1024 * 1024))
    else if c = 'g' ∨ c = 'G' then (parseDecimal cs.dropLast).map (· * (1024 * 1024 * 1024))
    else if c = 't' ∨ c = 'T' then (parseDecimal cs.dropLast).map (· * (1024 * 1024 * 1024 * 1024))
    else (parseDecimal cs).map (· * 1)

/-- Rust `.unwrap()` on the per-chunk `to_isize` result in the list branch;
the error case panics in the source and is unreachable because every
chunk already passed the token check. -/
def unwrapD (e : Except String Int) (d : Int) : Int :=
  match e with
  | .ok v => v
  | .error _ => d

/-- Rust `SizeArg::from_str` — try `ARG_RE1` (bare value or range; group 1 is
always present on a match, so the low bound is always `some`), then
`ARG_RE2` (comma list), and otherwise succeed with `SizeArg.none`. -/
def from_str (s : String) : Except String SizeArg :=
  match splitRange s.data with
  | some (a, Option.none) =>
      (to_isize a).map (fun x => SizeArg.range (some x) Option.none)
  | some (a, some b) => do
      let x ← to_isize a
      let y ← to_isize b
      pure (SizeArg.range (some x) (some y))
  | Option.none =>
      let chunks := splitCommas s.data
      if chunks.all sizeToken then
        .ok (SizeArg.list (chunks.map (fun t => unwrapD (to_isize t) 0)))
      else
        .ok SizeArg.none

/-- Menu `BLOCK_SIZES` — the canonical block-size menu. -/
def BLOCK_SIZES : List Int :=
  [128, 256, 512, 1024, 10 * 1024, 100 * 1024, 1024 * 1024,
   10 * 1024 * 1024, 100 * 1024 * 1024]

/-- Menu `DATA_SIZES` — the canonical data-size menu. -/
def DATA_SIZES : List Int :=
  [1 * 1024 * 1024, 10 * 1024 * 1024, 100 * 1024 * 1024,
   1024 * 1024 * 1024, 10 * 1024 * 1024 * 1024, 100 * 1024 * 1024 * 1024]

/-- Rust `SizeArg::get_blocks`.  The `Range(None, Some _)` arm is
`unreachable!` in the source (it panics); no parser output reaches it
(`from_str_low_bound_present` below), and it is modelled as `[]`. -/
def SizeArg.get_blocks : SizeArg → List Int
  | .none => []
  | .list sizes => sizes
  | .range Option.none Option.none => []
  | .range (some x) Option.none => [x]
  | .range Option.none (some _) => []
  | .range (some x) (some y) =>
      (BLOCK_SIZES.dropWhile (fun v => decide (v < x))).takeWhile
        (fun v => decide (v ≤ y))

/-- Rust `SizeArg::get_datas` — same shape over `DATA_SIZES`; the
`Range(None, Some _)` arm is `unreachable!` in the source. -/
def SizeArg.get_datas : SizeArg → List Int
  | .none => []
  | .list sizes => sizes
  | .range Option.none Option.none => []
  | .range (some x) Option.none => [x]
  | .range Option.none (some _) => []
  | .range (some x) (some y) =>
      (DATA_SIZES.dropWhile (fun v => decide (v < x))).takeWhile
        (fun v => decide (v ≤ y))

/-! Writer worker (src/main.rs).

`Context` carries `data_size : isize` (the remaining quota) and a block
buffer of `block_size` bytes; the loop `while ctxt.data_size > 0` writes
one whole block, syncs, decrements the quota by `block.len()` and calls
`stats.click(start_time, block.len())`.  Write/sync failures abort the
worker; the embedding is the success path (the claims are about
successful runs).  A zero-length block would make the source loop
forever; that case (never produced by the benchmark's size arguments in
the claims, which all have `b ≥ 1`) is cut off and not modelled. -/

/-- The per-worker quota computed by `main`:
`dsize / opt.nthreads` with Rust `isize` division (truncation toward
zero, `Int.tdiv`). -/
def worker_quota (dsize nthreads : Int) : Int :=
  Int.tdiv dsize nthreads

/-- Number of iterations of the `while ctxt.data_size > 0` loop, i.e.
the number of write+sync operations a worker performs. -/
def writerIters (q : Int) (b : Nat) : Nat :=
  if h : 0 < q then
    if hb : b = 0 then 0
    else 1 + writerIters (q - b) b
  else 0
termination_by q.toNat
decreasing_by
  omega

/-- Total bytes appended to the worker's file: one whole block of `b`
bytes per iteration (this is the file length `metadata().len()` the
worker adds to the shared `TOTAL` counter on completion). -/
def writerBytes (q : Int) (b : Nat) : Nat :=
  if _h : 0 < q then
    if _hb : b = 0 then 0
    else b + writerBytes (q - b) b
  else 0
termination_by q.toNat
decreasing_by
  omega

/-- The loop's effect on the `Stats` collector: iteration `k` calls
`Stats.click` with the oracle-observed window seconds `es k`, latency
`lat k`, and size `b` (`block.len()`). -/
def writerStats (es lat : Nat → Nat) (q : Int) (b : Nat) (k : Nat) (s : Stats) : Stats :=
  if h : 0 < q then
    if _hb : b = 0 then s
    else writerStats es lat (q - b) b (k + 1) (s.click (es k) (lat k) b)
  else s
termination_by q.toNat
decreasing_by
  omega

/-- Rust `writer_thread` — starts from `Stats::new` and runs the loop to
quota exhaustion. -/
def writer_thread (es lat : Nat → Nat) (q : Int) (b : Nat) : Stats :=
  writerStats es lat q b 0 Stats.new

/-- Decidable equality for parser results, so that concrete parses can
be settled by `decide`. -/
instance : DecidableEq (Except String SizeArg) := fun a b =>
  match a, b with
  | .ok x, .ok y =>
      if h : x = y then .isTrue (by rw [h])
      else .isFalse (fun k => h (by injection k))
  | .error x, .error y =>
      if h : x = y then .isTrue (by rw [h])
      else .isFalse (fun k => h (by injection k))
  | .ok _, .error _ => .isFalse (fun k => Except.noConfusion k)
  | .error _, .ok _ => .isFalse (fun k => Except.noConfusion k)

/-! Helper lemmas about the Stats collector. -/

lemma vecResize_length (l : List Nat) (n : Nat) : (vecResize l n).length = n := by
  unfold vecResize
  split <;> simp <;> omega

lemma getD_vecResize (l : List Nat) (n i : Nat) (hi : i < n) :
    (vecResize l n).getD i 0 = l.getD i 0 := by
  unfold vecResize
  split
  case isTrue h =>
    rw [List.getD_eq_getElem?_getD, List.getD_eq_getElem?_getD, List.getElem?_take]
    simp [hi]
  case isFalse h =>
    by_cases hil : i < l.length
    · exact List.getD_append _ _ _ _ hil
    · push_neg at hil
      rw [List.getD_append_right _ _ _ _ hil, List.getD_eq_default _ _ hil]
      rcases lt_or_ge (i - l.length) (n - l.length) with h2 | h2
      · rw [List.getD_eq_getElem?_getD, List.getElem?_replicate]
        simp [h2]
      · exact List.getD_eq_default _ _ (by simpa using h2)

lemma getD_zipWith_add :
    ∀ (a b : List Nat) (i : Nat), i < a.length → i < b.length →
      (List.zipWith (· + ·) a b).getD i 0 = a.getD i 0 + b.getD i 0 := by
  intro a
  induction a with
  | nil => intro b i h1 _; simp at h1
  | cons x xs ih =>
    intro b i h1 h2
    cases b with
    | nil => simp at h2
    | cons y ys =>
      cases i with
      | zero => simp [List.zipWith]
      | succ j =>
        simp only [List.zipWith, List.getD_cons_succ]
        exact ih ys j (by simpa using h1) (by simpa using h2)

lemma join_throughputs (s o : Stats) :
    (s.join o).throughputs
      = (vecResize s.throughputs o.throughputs.length).zipWith (· + ·) o.throughputs := by
  unfold Stats.join
  simp only []
  rw [List.drop_eq_nil_of_le (by rw [vecResize_length])]
  simp

/-- Claim C1 — counterexample.  The claim predicts that merging a
receiver with throughput sequence `[5, 7]` (length 2) and an argument
with `[3]` (length 1) yields a sequence of length 2 ending in `7`;
the code's `resize(other.len())` truncates the receiver instead, and
the result is `[8]` of length 1. -/
theorem stats_join_throughput_C1_cex :
    (Stats.join ⟨0, [], [5, 7]⟩ ⟨0, [], [3]⟩).throughputs = [8] ∧
    ¬ (Stats.join ⟨0, [], [5, 7]⟩ ⟨0, [], [3]⟩).throughputs.length = 2 := by
  decide

/-- Claim C1 (amended): merging `other` into the receiver produces a
throughput sequence whose length is `other`'s length; element `i` is
the sum of `other`'s element `i` and the receiver's element `i`, the
latter taken as 0 when the receiver is shorter.  Consequently, when the
receiver is the shorter sequence it is extended with zeros before
summing, but when the receiver is longer its excess samples are
dropped by the resize, not preserved. -/
theorem stats_join_throughput_C1 (s other : Stats) (i : Nat)
    (hi : i < other.throughputs.length) :
    (s.join other).throughputs.length = other.throughputs.length ∧
    (s.join other).throughputs.getD i 0
      = s.throughputs.getD i 0 + other.throughputs.getD i 0 := by
  constructor
  · rw [join_throughputs]
    simp [vecResize_length]
  · rw [join_throughputs]
    rw [getD_zipWith_add _ _ _ (by rw [vecResize_length]; exact hi) hi]
    rw [getD_vecResize _ _ _ hi]

/-- Claim C1 — witness at a concrete input (receiver shorter than the
argument: zero-extension case). -/
theorem stats_join_throughput_C1_witness :
    0 < (Stats.mk 0 [] [5, 7]).throughputs.length ∧
    ((Stats.mk 0 [] [3]).join (Stats.mk 0 [] [5, 7])).throughputs.length
      = (Stats.mk 0 [] [5, 7]).throughputs.length ∧
    ((Stats.mk 0 [] [3]).join (Stats.mk 0 [] [5, 7])).throughputs.getD 1 0
      = (Stats.mk 0 [] [3]).throughputs.getD 1 0
        + (Stats.mk 0 [] [5, 7]).throughputs.getD 1 0 :=
  ⟨by decide, stats_join_throughput_C1 (Stats.mk 0 [] [3]) (Stats.mk 0 [] [5, 7]) 1 (by decide)⟩

/-- Claim C2 — counterexample.  A call that observes two whole elapsed
seconds (`elapsed ≥ 1` second, as the claim requires) does not close
the window: the code's trigger is `as_secs() == 1`, so with
`as_secs() = 2` no throughput sample is appended and the pending total
is not reset but incremented. -/
theorem stats_click_window_C2_cex :
    1 ≤ 2 ∧
    (Stats.click ⟨5, [], []⟩ 2 10 7).throughputs = [] ∧
    (Stats.click ⟨5, [], []⟩ 2 10 7).tp_current = 12 := by
  decide

/-- Claim C2 (amended): the collector closes the window exactly when
the observed whole-second count of the elapsed time equals one (that
is, when `1 s ≤ elapsed < 2 s`), appending a sample equal to the
average of the previous sample and the pending total (the pending
total alone when there is no previous sample) and resetting the
pending total to zero (and the boundary to now); when the whole-second
count differs from one — including when it is two or more — the window
is not closed and the size is accumulated instead. -/
theorem stats_click_window_C2 (s : Stats) (es lat size : Nat) (hes : es = 1) :
    (Stats.click s es lat size).throughputs
      = s.throughputs ++
        [match s.throughputs.getLast? with
         | some x => (x + s.tp_current) / 2
         | Option.none => s.tp_current] ∧
    (Stats.click s es lat size).tp_current = 0 ∧
    ∀ es2, es2 ≠ 1 →
      (Stats.click s es2 lat size).throughputs = s.throughputs ∧
      (Stats.click s es2 lat size).tp_current = s.tp_current + size := by
  subst hes
  refine ⟨by simp [Stats.click], by simp [Stats.click], ?_⟩
  intro es2 hes2
  exact ⟨by simp [Stats.click, hes2], by simp [Stats.click, hes2]⟩

/-- Claim C2 — witness: closing call on a collector with a previous
sample `4` and pending total `5` appends `(4 + 5) / 2 = 4` and resets
the pending total. -/
theorem stats_click_window_C2_witness :
    (Stats.click ⟨5, [], [4]⟩ 1 10 7).throughputs = [4, 4] ∧
    (Stats.click ⟨5, [], [4]⟩ 1 10 7).tp_current = 0 :=
  ⟨((stats_click_window_C2 ⟨5, [], [4]⟩ 1 10 7 rfl).1).trans (by decide),
   (stats_click_window_C2 ⟨5, [], [4]⟩ 1 10 7 rfl).2.1⟩

/-- Claim C9: when a call to `click` closes a throughput window
(`as_secs() == 1` branch), its `size` argument plays no role at all —
the resulting state is the same as for a call with size 0 — and the
pending total of the next window restarts at zero, so those bytes enter
no throughput sample; and every call, in either branch, appends exactly
one latency sample. -/
theorem stats_click_close_C9 (s : Stats) (es lat size : Nat) (hes : es = 1) :
    Stats.click s es lat size = Stats.click s es lat 0 ∧
    (Stats.click s es lat size).tp_current = 0 ∧
    ∀ es2 lat2 size2,
      (Stats.click s es2 lat2 size2).sync_latencies
        = s.sync_latencies ++ [lat2] := by
  subst hes
  refine ⟨by simp [Stats.click], by simp [Stats.click], ?_⟩
  intro es2 lat2 size2
  unfold Stats.click
  split <;> simp

/-- Claim C9 — witness at a concrete closing call. -/
theorem stats_click_close_C9_witness :
    Stats.click ⟨5, [2], [4]⟩ 1 10 7 = Stats.click ⟨5, [2], [4]⟩ 1 10 0 ∧
    (Stats.click ⟨5, [2], [4]⟩ 1 10 7).tp_current = 0 ∧
    (Stats.click ⟨5, [2], [4]⟩ 3 11 7).sync_latencies = [2] ++ [11] :=
  ⟨(stats_click_close_C9 ⟨5, [2], [4]⟩ 1 10 7 rfl).1,
   (stats_click_close_C9 ⟨5, [2], [4]⟩ 1 10 7 rfl).2.1,
   (stats_click_close_C9 ⟨5, [2], [4]⟩ 1 10 7 rfl).2.2 3 11 7⟩

/-! Helper lemmas about the SizeArg parser and range expansion. -/

/-- On the success path of `ARG_RE1`, group 1 is always present, so the
parser can never produce a range with an absent lower bound and a
present upper bound: the `unreachable!` arms of `get_blocks` and
`get_datas` are indeed dead code. -/
lemma from_str_low_bound_present (s : String) (y : Int) :
    from_str s ≠ Except.ok (SizeArg.range Option.none (some y)) := by
  unfold from_str
  rcases h : splitRange s.data with _ | ⟨a, _ | b⟩
  · dsimp only []
    split <;> simp
  · dsimp only []
    rcases hx : to_isize a with e | x <;> simp [Except.map]
  · dsimp only []
    rcases hx : to_isize a with e | x <;>
      rcases hy : to_isize b with e' | y' <;>
        simp [Bind.bind, Except.bind, pure, Except.pure]

lemma takeWhile_le_of_sorted (B : Int) :
    ∀ (l : List Int), l.Sorted (· < ·) →
      l.takeWhile (fun v => decide (v ≤ B)) = l.filter (fun v => decide (v ≤ B)) := by
  intro l
  induction l with
  | nil => intro _; rfl
  | cons a l ih =>
    intro hs
    rw [List.sorted_cons] at hs
    by_cases haB : a ≤ B
    · rw [List.takeWhile_cons, if_pos (by simpa using haB),
        List.filter_cons, if_pos (by simpa using haB), ih hs.2]
    · have hnil : List.filter (fun v => decide (v ≤ B)) l = [] := by
        rw [List.filter_eq_nil_iff]
        intro x hx
        simp only [decide_eq_true_eq]
        have := hs.1 x hx
        omega
      rw [List.takeWhile_cons, if_neg (by simpa using haB),
        List.filter_cons, if_neg (by simpa using haB), hnil]

lemma dropWhile_takeWhile_of_sorted (A B : Int) :
    ∀ (l : List Int), l.Sorted (· < ·) →
      (l.dropWhile (fun v => decide (v < A))).takeWhile (fun v => decide (v ≤ B))
        = l.filter (fun v => decide (A ≤ v) && decide (v ≤ B)) := by
  intro l
  induction l with
  | nil => intro _; rfl
  | cons a l ih =>
    intro hs
    rw [List.sorted_cons] at hs
    by_cases haA : a < A
    · rw [List.dropWhile_cons, if_pos (by simpa using haA), List.filter_cons,
        if_neg (by simp only [Bool.and_eq_true, decide_eq_true_eq]; omega)]
      exact ih hs.2
    · have hall : ∀ x ∈ a :: l, (decide (A ≤ x) && decide (x ≤ B)) = decide (x ≤ B) := by
        intro x hx
        rcases List.mem_cons.mp hx with rfl | hx'
        · have hAx : A ≤ x := by omega
          simp [hAx]
        · have := hs.1 x hx'
          have hAx : A ≤ x := by omega
          simp [hAx]
      rw [List.dropWhile_cons, if_neg (by simpa using haA), List.filter_congr hall]
      exact takeWhile_le_of_sorted B (a :: l) (List.sorted_cons.mpr hs)

lemma BLOCK_SIZES_sorted : BLOCK_SIZES.Sorted (· < ·) := by
  unfold BLOCK_SIZES
  decide

lemma DATA_SIZES_sorted : DATA_SIZES.Sorted (· < ·) := by
  unfold DATA_SIZES
  decide

/-- Claim C3 — counterexample.  Parsing `"..20k"` does not return a
descriptive error: it succeeds with the unrecognized/empty spec
(`SizeArg::None`), which expands to the empty sequence — exactly the
silent coercion the claim rules out. -/
theorem sizearg_nolow_C3_cex :
    from_str ("..20k") = Except.ok SizeArg.none ∧
    SizeArg.get_blocks SizeArg.none = [] ∧
    SizeArg.get_datas SizeArg.none = [] := by
  decide

/-- Claim C3 (amended): a range text whose lower bound is absent while
the upper bound is present (e.g. `"..20k"`) matches neither argument
regex, so parsing succeeds with the empty spec `SizeArg::None` (which
expands to an empty sequence) rather than failing with an error; the
`Range(None, Some _)` value itself is unreachable from parsing (its
expansion arm is `unreachable!` dead code in the source). -/
theorem sizearg_nolow_C3 :
    from_str ("..20k") = Except.ok SizeArg.none ∧
    SizeArg.get_blocks SizeArg.none = [] ∧
    (∀ (s : String) (y : Int),
      from_str s ≠ Except.ok (SizeArg.range Option.none (some y))) :=
  ⟨by decide, by decide, from_str_low_bound_present⟩

/-- Claim C5 — counterexample.  `"1t"` does not parse as the single
value `1 × 1024⁴ = 1099511627776`: the regex character class is
`[kKmMgG]`, which excludes `t`/`T`, so the input is unrecognized and
parses as the empty spec. -/
theorem sizearg_suffix_C5_cex :
    from_str ("1t") = Except.ok SizeArg.none ∧
    from_str ("1t")
      ≠ Except.ok (SizeArg.range (some 1099511627776) Option.none) := by
  decide

/-- Claim C5 (amended): the accepted unit suffixes are `k`/`K` (×1024),
`m`/`M` (×1024²) and `g`/`G` (×1024³), case-insensitively, in bare
values, in both endpoints of a range and in comma-separated lists;
`t`/`T` (×1024⁴) is implemented in the numeric converter `to_isize`
but excluded from both regex character classes, so an input such as
`"1t"` parses as the unrecognized (empty) spec instead of the value
1024⁴. -/
lemma to_isize_concat (ds : List Char) (c : Char) :
    to_isize (ds ++ [c]) =
      if c = 'k' ∨ c = 'K' then (parseDecimal ds).map (· * 1024)
      else if c = 'm' ∨ c = 'M' then (parseDecimal ds).map (· * (1024 * 1024))
      else if c = 'g' ∨ c = 'G' then (parseDecimal ds).map (· * (1024 * 1024 * 1024))
      else if c = 't' ∨ c = 'T' then
        (parseDecimal ds).map (· * (1024 * 1024 * 1024 * 1024))
      else (parseDecimal (ds ++ [c])).map (· * 1) := by
  unfold to_isize
  rw [List.getLast?_concat, List.dropLast_concat]

theorem sizearg_suffix_C5 (ds : List Char) (h1 : ds ≠ [])
    (h2 : ds.all (·.isDigit)) :
    (to_isize (ds ++ ['k']) = (parseDecimal ds).map (· * 1024) ∧
     to_isize (ds ++ ['K']) = (parseDecimal ds).map (· * 1024) ∧
     to_isize (ds ++ ['m']) = (parseDecimal ds).map (· * (1024 * 1024)) ∧
     to_isize (ds ++ ['M']) = (parseDecimal ds).map (· * (1024 * 1024)) ∧
     to_isize (ds ++ ['g']) = (parseDecimal ds).map (· * (1024 * 1024 * 1024)) ∧
     to_isize (ds ++ ['G']) = (parseDecimal ds).map (· * (1024 * 1024 * 1024)) ∧
     to_isize (ds ++ ['t']) = (parseDecimal ds).map (· * (1024 * 1024 * 1024 * 1024)) ∧
     to_isize (ds ++ ['T']) = (parseDecimal ds).map (· * (1024 * 1024 * 1024 * 1024)) ∧
     ∃ v : Int, parseDecimal ds = Except.ok v) ∧
    from_str ("8") = Except.ok (SizeArg.range (some 8) Option.none) ∧
    from_str ("2k..1M") = Except.ok (SizeArg.range (some 2048) (some 1048576)) ∧
    from_str ("1k,2m,3G") = Except.ok (SizeArg.list [1024, 2097152, 3221225472]) ∧
    from_str ("1t") = Except.ok SizeArg.none := by
  have hpd : ∃ v : Int, parseDecimal ds = Except.ok v :=
    ⟨ds.foldl (fun a c => a * 10 + ((c.toNat : Int) - 48)) 0, by
      unfold parseDecimal
      rw [if_pos ⟨h1, h2⟩]⟩
  refine ⟨⟨?_, ?_, ?_, ?_, ?_, ?_, ?_, ?_, hpd⟩,
    by decide, by decide, by decide, by decide⟩
  · rw [to_isize_concat, if_pos (Or.inl rfl)]
  · rw [to_isize_concat, if_pos (Or.inr rfl)]
  · rw [to_isize_concat, if_neg (by decide : ¬('m' = 'k' ∨ 'm' = 'K')),
      if_pos (Or.inl rfl)]
  · rw [to_isize_concat, if_neg (by decide : ¬('M' = 'k' ∨ 'M' = 'K')),
      if_pos (Or.inr rfl)]
  · rw [to_isize_concat, if_neg (by decide : ¬('g' = 'k' ∨ 'g' = 'K')),
      if_neg (by decide : ¬('g' = 'm' ∨ 'g' = 'M')), if_pos (Or.inl rfl)]
  · rw [to_isize_concat, if_neg (by decide : ¬('G' = 'k' ∨ 'G' = 'K')),
      if_neg (by decide : ¬('G' = 'm' ∨ 'G' = 'M')), if_pos (Or.inr rfl)]
  · rw [to_isize_concat, if_neg (by decide : ¬('t' = 'k' ∨ 't' = 'K')),
      if_neg (by decide : ¬('t' = 'm' ∨ 't' = 'M')),
      if_neg (by decide : ¬('t' = 'g' ∨ 't' = 'G')), if_pos (Or.inl rfl)]
  · rw [to_isize_concat, if_neg (by decide : ¬('T' = 'k' ∨ 'T' = 'K')),
      if_neg (by decide : ¬('T' = 'm' ∨ 'T' = 'M')),
      if_neg (by decide : ¬('T' = 'g' ∨ 'T' = 'G')), if_pos (Or.inr rfl)]

/-- Claim C5 — witness at the digit run `"20"`. -/
theorem sizearg_suffix_C5_witness :
    (['2', '0'] : List Char) ≠ [] ∧
    (to_isize (['2', '0'] ++ ['k'])
        = (parseDecimal ['2', '0']).map (· * 1024) ∧
     to_isize (['2', '0'] ++ ['K'])
        = (parseDecimal ['2', '0']).map (· * 1024) ∧
     to_isize (['2', '0'] ++ ['m'])
        = (parseDecimal ['2', '0']).map (· * (1024 * 1024)) ∧
     to_isize (['2', '0'] ++ ['M'])
        = (parseDecimal ['2', '0']).map (· * (1024 * 1024)) ∧
     to_isize (['2', '0'] ++ ['g'])
        = (parseDecimal ['2', '0']).map (· * (1024 * 1024 * 1024)) ∧
     to_isize (['2', '0'] ++ ['G'])
        = (parseDecimal ['2', '0']).map (· * (1024 * 1024 * 1024)) ∧
     to_isize (['2', '0'] ++ ['t'])
        = (parseDecimal ['2', '0']).map (· * (1024 * 1024 * 1024 * 1024)) ∧
     to_isize (['2', '0'] ++ ['T'])
        = (parseDecimal ['2', '0']).map (· * (1024 * 1024 * 1024 * 1024)) ∧
     ∃ v : Int, parseDecimal ['2', '0'] = Except.ok v) ∧
    from_str ("8") = Except.ok (SizeArg.range (some 8) Option.none) ∧
    from_str ("2k..1M") = Except.ok (SizeArg.range (some 2048) (some 1048576)) ∧
    from_str ("1k,2m,3G") = Except.ok (SizeArg.list [1024, 2097152, 3221225472]) ∧
    from_str ("1t") = Except.ok SizeArg.none :=
  ⟨by decide, sizearg_suffix_C5 ['2', '0'] (by decide) (by decide)⟩

/-- Claim C6: for a valid range `A..B` with `A ≤ B`, expansion against
the canonical block-size menu (and likewise the data-size menu) yields
exactly the menu values `v` with `A ≤ v ≤ B`, strictly ascending and
without duplicates. -/
theorem sizearg_range_menu_C6 (A B : Int) (_hAB : A ≤ B) :
    SizeArg.get_blocks (SizeArg.range (some A) (some B))
      = BLOCK_SIZES.filter (fun v => decide (A ≤ v) && decide (v ≤ B)) ∧
    SizeArg.get_datas (SizeArg.range (some A) (some B))
      = DATA_SIZES.filter (fun v => decide (A ≤ v) && decide (v ≤ B)) ∧
    (SizeArg.get_blocks (SizeArg.range (some A) (some B))).Sorted (· < ·) ∧
    (SizeArg.get_blocks (SizeArg.range (some A) (some B))).Nodup ∧
    (SizeArg.get_datas (SizeArg.range (some A) (some B))).Sorted (· < ·) ∧
    (SizeArg.get_datas (SizeArg.range (some A) (some B))).Nodup := by
  have hb : SizeArg.get_blocks (SizeArg.range (some A) (some B))
      = BLOCK_SIZES.filter (fun v => decide (A ≤ v) && decide (v ≤ B)) := by
    unfold SizeArg.get_blocks
    exact dropWhile_takeWhile_of_sorted A B BLOCK_SIZES BLOCK_SIZES_sorted
  have hd : SizeArg.get_datas (SizeArg.range (some A) (some B))
      = DATA_SIZES.filter (fun v => decide (A ≤ v) && decide (v ≤ B)) := by
    unfold SizeArg.get_datas
    exact dropWhile_takeWhile_of_sorted A B DATA_SIZES DATA_SIZES_sorted
  have hbs : (SizeArg.get_blocks (SizeArg.range (some A) (some B))).Sorted (· < ·) := by
    rw [hb]; exact BLOCK_SIZES_sorted.filter _
  have hds : (SizeArg.get_datas (SizeArg.range (some A) (some B))).Sorted (· < ·) := by
    rw [hd]; exact DATA_SIZES_sorted.filter _
  exact ⟨hb, hd, hbs, hbs.nodup, hds, hds.nodup⟩

/-- Claim C6 — witness: the range `2k..20k` selects exactly `{10k}`
from the block menu and nothing from the data menu. -/
theorem sizearg_range_menu_C6_witness :
    (2048 : Int) ≤ 20480 ∧
    (SizeArg.get_blocks (SizeArg.range (some 2048) (some 20480))
      = BLOCK_SIZES.filter (fun v => decide (2048 ≤ v) && decide (v ≤ 20480)) ∧
    SizeArg.get_datas (SizeArg.range (some 2048) (some 20480))
      = DATA_SIZES.filter (fun v => decide (2048 ≤ v) && decide (v ≤ 20480)) ∧
    (SizeArg.get_blocks (SizeArg.range (some 2048) (some 20480))).Sorted (· < ·) ∧
    (SizeArg.get_blocks (SizeArg.range (some 2048) (some 20480))).Nodup ∧
    (SizeArg.get_datas (SizeArg.range (some 2048) (some 20480))).Sorted (· < ·) ∧
    (SizeArg.get_datas (SizeArg.range (some 2048) (some 20480))).Nodup) :=
  ⟨by decide, sizearg_range_menu_C6 2048 20480 (by decide)⟩

/-! Helper lemmas about the writer loop and quota arithmetic. -/

lemma writerIters_nonpos (q : Int) (b : Nat) (hq : ¬ 0 < q) :
    writerIters q b = 0 := by
  unfold writerIters
  rw [dif_neg hq]

lemma writerIters_eq_ceil (q : Int) (b : Nat) (hq : 0 < q) (hb : 0 < b) :
    writerIters q b = (q.toNat + b - 1) / b := by
  unfold writerIters
  rw [dif_pos hq, dif_neg (by omega : ¬ b = 0)]
  by_cases hqb : 0 < q - (b : Int)
  · rw [writerIters_eq_ceil (q - b) b hqb hb]
    have h1 : ((q - (b : Int)).toNat) = q.toNat - b := by omega
    rw [h1]
    have h3 : q.toNat + b - 1 = (q.toNat - b + b - 1) + b := by omega
    rw [h3, Nat.add_div_right _ hb]
    omega
  · rw [writerIters_nonpos _ _ hqb]
    have h4 : q.toNat + b - 1 = (q.toNat - 1) + b := by omega
    rw [h4, Nat.add_div_right _ hb, Nat.div_eq_of_lt (by omega : q.toNat - 1 < b)]
termination_by q.toNat
decreasing_by omega

lemma writerBytes_eq_mul (q : Int) (b : Nat) :
    writerBytes q b = b * writerIters q b := by
  by_cases hq : 0 < q
  · by_cases hb : b = 0
    · unfold writerBytes writerIters
      rw [dif_pos hq, dif_pos hb, dif_pos hq, dif_pos hb]
      simp
    · unfold writerBytes writerIters
      rw [dif_pos hq, dif_neg hb, dif_pos hq, dif_neg hb]
      rw [writerBytes_eq_mul (q - b) b]
      ring
  · unfold writerBytes writerIters
    rw [dif_neg hq, dif_neg hq]
    simp
termination_by q.toNat
decreasing_by omega

lemma click_latlen (s : Stats) (es lat size : Nat) :
    (Stats.click s es lat size).sync_latencies = s.sync_latencies ++ [lat] := by
  unfold Stats.click
  split <;> rfl

lemma writerStats_latlen (es lat : Nat → Nat) (q : Int) (b : Nat) (k : Nat) (s : Stats) :
    (writerStats es lat q b k s).sync_latencies.length
      = s.sync_latencies.length + writerIters q b := by
  by_cases hq : 0 < q
  · by_cases hb : b = 0
    · unfold writerStats writerIters
      rw [dif_pos hq, dif_pos hb, dif_pos hq, dif_pos hb]
      simp
    · unfold writerStats writerIters
      rw [dif_pos hq, dif_neg hb, dif_pos hq, dif_neg hb]
      rw [writerStats_latlen es lat (q - b) b (k + 1) (s.click (es k) (lat k) b)]
      rw [click_latlen]
      simp only [List.length_append, List.length_cons, List.length_nil]
      omega
  · unfold writerStats writerIters
    rw [dif_neg hq, dif_neg hq]
    simp
termination_by q.toNat
decreasing_by omega

lemma le_mul_ceilDiv (n b : Nat) (hb : 0 < b) : n ≤ b * ((n + b - 1) / b) := by
  have hd := Nat.div_add_mod (n + b - 1) b
  have hm : (n + b - 1) % b < b := Nat.mod_lt _ hb
  generalize hX : b * ((n + b - 1) / b) = X at hd ⊢
  omega

lemma mul_ceilDiv_of_dvd (n b : Nat) (hb : 0 < b) (h : b ∣ n) :
    b * ((n + b - 1) / b) = n := by
  obtain ⟨k, rfl⟩ := h
  have h1 : b * k + b - 1 = b * k + (b - 1) := by omega
  rw [h1, Nat.mul_add_div hb, Nat.div_eq_of_lt (by omega : b - 1 < b)]
  ring

lemma lt_mul_ceilDiv_of_not_dvd (n b : Nat) (hb : 0 < b) (h : ¬ b ∣ n) :
    n < b * ((n + b - 1) / b) := by
  rcases Nat.lt_or_ge n (b * ((n + b - 1) / b)) with h1 | h1
  · exact h1
  · exfalso
    have h2 := le_mul_ceilDiv n b hb
    have h3 : b * ((n + b - 1) / b) = n := by omega
    exact h ⟨(n + b - 1) / b, h3.symm⟩

/-- Claim C7: with thread count `N ≥ 1` and data size `D ≥ 0`, each
worker gets quota `floor(D / N)` (`isize` division, remainder
discarded), so the total quota assigned is `N * (D / N) ≤ D`, with
equality exactly when `N` divides `D`. -/
theorem worker_quota_C7 (D N : Int) (hD : 0 ≤ D) (hN : 1 ≤ N) :
    N * worker_quota D N ≤ D ∧ (N * worker_quota D N = D ↔ N ∣ D) := by
  have ht : worker_quota D N = D / N := by
    unfold worker_quota
    exact Int.tdiv_eq_ediv hD (by omega)
  constructor
  · rw [ht, mul_comm]
    exact Int.ediv_mul_le D (by omega)
  · rw [ht]
    constructor
    · intro h
      exact ⟨D / N, h.symm⟩
    · intro h
      exact Int.mul_ediv_cancel' h

/-- Claim C7 — witness: `D = 10`, `N = 3` gives total `3 * 3 = 9 ≤ 10`
and no equality since `3` does not divide `10`. -/
theorem worker_quota_C7_witness :
    (0 : Int) ≤ 10 ∧ (1 : Int) ≤ 3 ∧
    (3 * worker_quota 10 3 ≤ 10 ∧ (3 * worker_quota 10 3 = 10 ↔ (3 : Int) ∣ 10)) :=
  ⟨by decide, by decide, worker_quota_C7 10 3 (by decide) (by decide)⟩

/-- Claim C8: a worker with block size `b ≥ 1` and quota `Q > 0`
performs exactly `ceil(Q / b)` write+sync operations, appends exactly
that many latency samples through `Stats::click`, and writes
`b * ceil(Q / b)` bytes — at least `Q`, and strictly more than `Q`
whenever `b` does not divide `Q`. -/
theorem writer_loop_C8 (q : Int) (b : Nat) (es lat : Nat → Nat)
    (hq : 0 < q) (hb : 0 < b) :
    writerIters q b = (q.toNat + b - 1) / b ∧
    (writer_thread es lat q b).sync_latencies.length = (q.toNat + b - 1) / b ∧
    writerBytes q b = b * ((q.toNat + b - 1) / b) ∧
    q.toNat ≤ writerBytes q b ∧
    (¬ (b ∣ q.toNat) → q.toNat < writerBytes q b) := by
  have hc := writerIters_eq_ceil q b hq hb
  have hbytes : writerBytes q b = b * ((q.toNat + b - 1) / b) := by
    rw [writerBytes_eq_mul, hc]
  refine ⟨hc, ?_, hbytes, ?_, ?_⟩
  · unfold writer_thread
    rw [writerStats_latlen, hc]
    simp [Stats.new]
  · rw [hbytes]
    exact le_mul_ceilDiv q.toNat b hb
  · intro hnd
    rw [hbytes]
    exact lt_mul_ceilDiv_of_not_dvd q.toNat b hb hnd

/-- Claim C8 — witness: quota 5, block size 2 gives `ceil(5/2) = 3`
operations, 3 latency samples and `6 > 5` bytes. -/
theorem writer_loop_C8_witness :
    (0 : Int) < 5 ∧ 0 < 2 ∧
    (writerIters 5 2 = ((5 : Int).toNat + 2 - 1) / 2 ∧
     (writer_thread (fun _ => 0) (fun _ => 0) 5 2).sync_latencies.length
       = ((5 : Int).toNat + 2 - 1) / 2 ∧
     writerBytes 5 2 = 2 * (((5 : Int).toNat + 2 - 1) / 2) ∧
     (5 : Int).toNat ≤ writerBytes 5 2 ∧
     (¬ (2 ∣ (5 : Int).toNat) → (5 : Int).toNat < writerBytes 5 2)) :=
  ⟨by decide, by decide,
   writer_loop_C8 5 2 (fun _ => 0) (fun _ => 0) (by decide) (by decide)⟩

/-- Claim C10: a worker whose context starts with quota `≤ 0` performs
zero write or sync operations and returns a Stats equal to
`Stats::new`, whose latency and throughput sequences are both empty. -/
theorem writer_idle_C10 (es lat : Nat → Nat) (q : Int) (b : Nat) (hq : q ≤ 0) :
    writerIters q b = 0 ∧
    writerBytes q b = 0 ∧
    writer_thread es lat q b = Stats.new ∧
    (writer_thread es lat q b).sync_latencies = [] ∧
    (writer_thread es lat q b).throughputs = [] := by
  have h3 : writer_thread es lat q b = Stats.new := by
    unfold writer_thread writerStats
    rw [dif_neg (by omega : ¬ 0 < q)]
  refine ⟨writerIters_nonpos q b (by omega), ?_, h3, by rw [h3]; rfl, by rw [h3]; rfl⟩
  unfold writerBytes
  rw [dif_neg (by omega : ¬ 0 < q)]

/-- Claim C10 — witness: data size 100 with 200 threads gives quota
`100 / 200 = 0`, and the worker does nothing. -/
theorem writer_idle_C10_witness :
    worker_quota 100 200 ≤ 0 ∧
    (writerIters (worker_quota 100 200) 1024 = 0 ∧
     writerBytes (worker_quota 100 200) 1024 = 0 ∧
     writer_thread (fun _ => 0) (fun _ => 0) (worker_quota 100 200) 1024 = Stats.new ∧
     (writer_thread (fun _ => 0) (fun _ => 0) (worker_quota 100 200) 1024).sync_latencies = [] ∧
     (writer_thread (fun _ => 0) (fun _ => 0) (worker_quota 100 200) 1024).throughputs = []) :=
  ⟨by decide,
   writer_idle_C10 (fun _ => 0) (fun _ => 0) (worker_quota 100 200) 1024 (by decide)⟩

/-- Claim C4 — counterexample.  With data size 1000 and 3 threads each
quota is indeed 333, but the shared counter accumulates each worker's
final file length, which is a whole number of blocks: at the program's
default block size 1024 each worker writes one full 1024-byte block, so
the counter reaches `3 * 1024 = 3072`, not at most 999. -/
theorem totals_1000_3_C4_cex :
    worker_quota 1000 3 = 333 ∧
    3 * writerBytes 333 1024 = 3072 ∧
    ¬ (3 * writerBytes 333 1024 ≤ 999) := by
  have h12 : writerBytes 333 1024 = 1024 := by
    unfold writerBytes
    rw [dif_pos (by decide : (0 : Int) < 333), dif_neg (by decide : ¬ (1024 : Nat) = 0)]
    unfold writerBytes
    rw [dif_neg (by decide : ¬ (0 : Int) < 333 - ((1024 : Nat) : Int))]
  refine ⟨by decide, by rw [h12], ?_⟩
  rw [h12]
  decide

/-- Claim C4 (amended): with data size 1000 and 3 threads each worker's
quota is `floor(1000/3) = 333` and the total quota is `999 ≤ 999`; the
total byte count accumulated into the shared counter, however, is
`3 * blockSize * ceil(333 / blockSize)`: it equals 999 exactly when the
block size divides 333, and exceeds 1000 otherwise, because every
worker writes whole blocks until its quota is exhausted. -/
theorem totals_1000_3_C4 (b : Nat) (hb : 0 < b) :
    worker_quota 1000 3 = 333 ∧
    3 * worker_quota 1000 3 = 999 ∧
    (b ∣ 333 → 3 * writerBytes 333 b = 999) ∧
    (¬ b ∣ 333 → 1000 < 3 * writerBytes 333 b) := by
  have h333 : (333 : Int).toNat = 333 := by decide
  have hbytes : writerBytes 333 b = b * ((333 + b - 1) / b) := by
    rw [writerBytes_eq_mul, writerIters_eq_ceil 333 b (by decide) hb, h333]
  refine ⟨by decide, by decide, ?_, ?_⟩
  · intro hd
    rw [hbytes, mul_ceilDiv_of_dvd 333 b hb hd]
  · intro hnd
    rw [hbytes]
    have h1 : 333 < b * ((333 + b - 1) / b) :=
      lt_mul_ceilDiv_of_not_dvd 333 b hb hnd
    generalize hX : b * ((333 + b - 1) / b) = X at h1 ⊢
    omega

/-- Claim C4 — witness at block size 1024 (`1024` does not divide 333,
so the counter exceeds 1000). -/
theorem totals_1000_3_C4_witness :
    0 < 1024 ∧
    (worker_quota 1000 3 = 333 ∧
     3 * worker_quota 1000 3 = 999 ∧
     ((1024 : Nat) ∣ 333 → 3 * writerBytes 333 1024 = 999) ∧
     (¬ (1024 : Nat) ∣ 333 → 1000 < 3 * writerBytes 333 1024)) :=
  ⟨by decide, totals_1000_3_C4 1024 (by decide)⟩

end Diskio
